import Mathlib

/-!
Shallow embedding of `src/app/scraper.py` (class `Loader`): the product
identifier derivation (`_get_id`), the partition purge (`_delete`), the
page-count observation (`_get_html_count`), the fetch-convergence-retry
driver (`scrape`) and the extraction-and-persistence pipeline (`extract`).
External collaborators (the filesystem partition populated by the crawler
subprocess, the clock, MongoDB) are modelled as explicit state threaded
through the functions; the crawler launch and the sleep step are supplied
as functions on that state by an environment record.
-/

set_option autoImplicit false

/-- Decidable equality of outcomes, used to evaluate the model on
concrete inputs in witnesses. -/
instance {ε α : Type} [DecidableEq ε] [DecidableEq α] : DecidableEq (Except ε α) :=
  fun x y =>
    match x, y with
    | .ok a, .ok b =>
      if h : a = b then .isTrue (by rw [h]) else .isFalse (fun hh => h (by injection hh))
    | .error a, .error b =>
      if h : a = b then .isTrue (by rw [h]) else .isFalse (fun hh => h (by injection hh))
    | .ok _, .error _ => .isFalse (fun hh => by injection hh)
    | .error _, .ok _ => .isFalse (fun hh => by injection hh)

namespace Scraper

/-! ## Python string helpers -/

/-- Python slice `s[-n:]` on a string viewed as a list of characters:
the last `n` characters, or the whole string when it is shorter. -/
def pyTail (n : Nat) (s : List Char) : List Char :=
  s.drop (s.length - n)

/-- Split a character list on the slash character.  `splitOnSlash l`
always returns one more piece than the number of slashes, so the
matches of the Python regex lookbehind pattern used by `_get_id`
(every maximal run of non-slash characters that follows a slash)
are exactly `(splitOnSlash l).drop 1`. -/
def splitOnSlash : List Char → List (List Char)
  | [] => [[]]
  | c :: t =>
    match splitOnSlash t with
    | [] => [[]]
    | h :: r => if c = '/' then [] :: h :: r else (c :: h) :: r

/-- The list returned by `re.findall` of the lookbehind pattern in
`Loader._get_id`: one entry per slash of the url. -/
def urlSegs (url : List Char) : List (List Char) :=
  (splitOnSlash url).drop 1

/-- Loader._get_id: take the second-to-last segment of the url; if its
length is not 10, fall back to the first 10 characters of the last
segment.  `none` models the IndexError raised when the url has fewer
than two segments after a slash (caught by `scrape` and re-raised as
a RuntimeError). -/
def getId (url : List Char) : Option (List Char) :=
  if 2 ≤ (urlSegs url).length then
    if ((urlSegs url).getD ((urlSegs url).length - 2) []).length = 10 then
      some ((urlSegs url).getD ((urlSegs url).length - 2) [])
    else some ((((urlSegs url).getLast?).getD []).take 10)
  else none

/-- A url in one of the two formats documented in `_get_id`:
either the second-to-last segment is the 10-character identifier
(format `.../id/...`), or the last segment starts with the
10-character identifier (format `.../id`, possibly with query text
appended to the identifier). -/
def ValidUrl (url : List Char) : Prop :=
  2 ≤ (urlSegs url).length ∧
    (((urlSegs url).getD ((urlSegs url).length - 2) []).length = 10 ∨
      10 ≤ (((urlSegs url).getLast?).getD []).length)

instance (url : List Char) : Decidable (ValidUrl url) := by
  unfold ValidUrl; infer_instance

/-! ## Document store model for `scrape` -/

/-- State of the review partition `reviews/com/<asin>/` as `scrape`
observes it: `partition = none` models a missing directory, `some files`
the directory with the listed file names; `summary` is the advertised
total review count readable from the summary span of page 1 (`none`
models a missing or unparsable span, which makes the read raise). -/
structure Store where
  partition : Option (List String)
  summary : Option Nat
deriving DecidableEq

/-- Errors surfaced by `scrape`.  Each constructor corresponds to an
exception of the Python code except `fuelOut`, which models
non-termination of the convergence poll loop (the loop is given fuel
because a fetcher that keeps changing the page count forever would make
it spin forever). -/
inductive Err where
  | identifierDerivationFailed
  | osError
  | fetcherUnavailable
  | ioError
  | invalidPage1
  | scrapeFailed
  | fuelOut
deriving DecidableEq

/-- Environment of one `scrape` call: directory listings used to locate
the crawler script, the effect of one crawler run (`fetch`, the
`os.system` call) and the effect of one ten-second sleep (`tick`),
during which the background world may change the store. -/
structure Env where
  cwdFiles : List String
  scriptsFiles : Option (List String)
  fetch : Store → Store
  tick : Store → Store

/-- Scrape-side state: the store plus a ghost counter of crawler
launches (used only to state how often the Fetcher was invoked). -/
structure SState where
  store : Store
  launches : Nat
deriving DecidableEq

/-- Loader._get_html_count: number of files in the partition whose last
four characters are `html`; `none` models the OSError of listing a
missing directory. -/
def getHtmlCount (st : Store) : Option Nat :=
  st.partition.map (fun files =>
    (files.filter (fun f => pyTail 4 f.data == "html".data)).length)

/-- Loader._delete: list the partition (raising OSError when the
directory is missing, since that listing is outside any try block),
remove every listed file, remove the directory. -/
def deleteOp (s : SState) : Except (Err × SState) SState :=
  match s.store.partition with
  | none => .error (.osError, s)
  | some _ => .ok ⟨{ s.store with partition := none }, s.launches⟩

/-- Locating `amazon_crawler.py`: current directory first, then the
`scripts` directory (listing it raises when it is absent), otherwise a
RuntimeError. -/
def crawlerCmd (E : Env) : Except Err Unit :=
  if "amazon_crawler.py" ∈ E.cwdFiles then .ok ()
  else
    match E.scriptsFiles with
    | none => .error .osError
    | some l => if "amazon_crawler.py" ∈ l then .ok () else .error .fetcherUnavailable

/-- Ceiling of `n / 10`, as computed by `int(math.ceil(n / 10.))`. -/
def ceilDiv10 (n : Nat) : Nat := (n + 9) / 10

/-- Expected page count on the resume path. -/
def expectedPages (nReviews total : Nat) : Nat :=
  min (ceilDiv10 nReviews) (ceilDiv10 total)

/-- The statement after the poll loop: when the observed count is short
of the expected count and the stall flag fired, the page count is set
to the sentinel value 1 so that the retry driver redoes everything. -/
def sentinelStep (expected last : Nat) (nf : Bool) : Nat :=
  if last ≠ expected ∧ nf = false then 1 else last

/-- The convergence poll loop of `scrape`: while the observed count
differs from the expected count and files are still appearing, sleep
(one `tick`), re-read the count, and clear the `nf` flag (`new_files`)
when two consecutive observations agree.  The fuel argument only models
divergence; each code iteration consumes exactly one unit. -/
def pollLoop (E : Env) (expected : Nat) :
    Nat → Store → Nat → Bool → Except (Err × Store) (Nat × Bool × Store)
  | 0, st, _, _ => .error (.fuelOut, st)
  | fuel + 1, st, last, nf =>
    if last ≠ expected ∧ nf = true then
      let st' := E.tick st
      match getHtmlCount st' with
      | none => .error (.osError, st')
      | some cnt => pollLoop E expected fuel st' cnt (if last = cnt then false else nf)
    else .ok (last, nf, st)

/-- One pass of the body of `Loader.scrape` (lines 104 to 161): derive
the identifier, optionally purge, locate the crawler, then either run
the crawler and count the produced pages (fresh path, entered when the
partition directory does not exist) or read the advertised total from
page 1, compute the expected page count and poll for convergence
(resume path).  The returned number is `last_page` as left by the body,
after the sentinel assignment. -/
def scrapeBody (E : Env) (url : String) (nReviews : Nat) (del : Bool) (fuel : Nat)
    (s : SState) : Except (Err × SState) (Nat × SState) :=
  match getId url.data with
  | none => .error (.identifierDerivationFailed, s)
  | some asinL =>
    let asin : String := String.mk asinL
    match (if del then deleteOp s else .ok s) with
    | .error e => .error e
    | .ok s1 =>
      match crawlerCmd E with
      | .error e => .error (e, s1)
      | .ok _ =>
        match s1.store.partition with
        | none =>
          let st2 := E.fetch s1.store
          match getHtmlCount st2 with
          | none => .error (.osError, ⟨st2, s1.launches + 1⟩)
          | some c => .ok (c, ⟨st2, s1.launches + 1⟩)
        | some files =>
          if (asin ++ "_1.html") ∈ files then
            match s1.store.summary with
            | none => .error (.invalidPage1, s1)
            | some total =>
              let expected := expectedPages nReviews total
              match getHtmlCount s1.store with
              | none => .error (.osError, s1)
              | some last0 =>
                match pollLoop E expected fuel s1.store last0 true with
                | .error (e, st') => .error (e, ⟨st', s1.launches⟩)
                | .ok (last, nf, st') =>
                  .ok (sentinelStep expected last nf, ⟨st', s1.launches⟩)
          else .error (.ioError, s1)

/-- The statements after the retry while loop: when the sentinel is
still 1 at retry count 5, purge once more and raise the final
RuntimeError; otherwise return normally. -/
def retryExit (s : SState) (retries last : Nat) :
    Except (Err × SState) (Nat × Nat × SState) :=
  if last = 1 ∧ retries = 5 then
    match deleteOp s with
    | .error e => .error e
    | .ok s' => .error (.scrapeFailed, s')
  else .ok (retries, last, s)

/-- The retry while loop of `scrape` (lines 166 to 173).  A recursive
call of the Python code with positive `retries` runs the body with
`delete=True` and returns immediately (lines 163 to 164), so each loop
iteration is exactly one body pass; that unfolding is inlined here.
The structural `gas` argument is called with value `5 - retries`, so
gas 0 coincides with the loop condition `retries < 5` failing. -/
def retryLoop (E : Env) (url : String) (nReviews fuel : Nat) :
    Nat → Nat → Nat → SState → Except (Err × SState) (Nat × Nat × SState)
  | 0, retries, last, s => retryExit s retries last
  | gas + 1, retries, last, s =>
    if last = 1 ∧ retries < 5 then
      match scrapeBody E url nReviews true fuel s with
      | .error e => .error e
      | .ok (last', s') => retryLoop E url nReviews fuel gas (retries + 1) last' s'
    else retryExit s retries last

/-- Loader.scrape as invoked by a caller (`retries = 0`): one body pass
followed by the retry driver.  The result triple is (retries,
last_page, state). -/
def scrape (E : Env) (url : String) (nReviews : Nat) (del : Bool) (fuel : Nat)
    (s : SState) : Except (Err × SState) (Nat × Nat × SState) :=
  match scrapeBody E url nReviews del fuel s with
  | .error e => .error e
  | .ok (last, s') => retryLoop E url nReviews fuel 5 0 last s'

/-- Ghost launch counter of a scrape outcome. -/
def launchesOf : Except (Err × SState) (Nat × SState) → Nat
  | .ok (_, s) => s.launches
  | .error (_, s) => s.launches

/-! ## Extraction pipeline model -/

/-- Errors surfaced by `extract`: the IOError of opening a missing page
1 during name resolution, the RuntimeError raised when no product name
can be selected from page 1, and the uncaught AttributeError,
IndexError or ValueError of a review block whose rating node or review
text node is missing or unparsable. -/
inductive ExErr where
  | ioError
  | invalidHtml
  | missingRating
  | missingReview
deriving DecidableEq

/-- One review block, that is one `div` of class `a-section review`:
the text of its first `i` tag (`none` when there is no `i` tag, which
makes the rating read raise), and the text lists selected by the
review-text, author and review-title class filters. -/
structure ReviewTag where
  iText : Option String
  reviewSpans : List String
  authorLinks : List String
  headlineLinks : List String
deriving DecidableEq

/-- One stored document of the partition: its file name, the texts of
its `a-link-normal` anchors (page 1 only feeds name resolution) and
its review blocks. -/
structure Page where
  name : String
  anchors : List String
  blocks : List ReviewTag
deriving DecidableEq

/-- The partition listing, in directory-listing order. -/
abbrev DocumentStore := List Page

/-- The record built for one review and sent to MongoDB. -/
structure ReviewRecord where
  asin : String
  review_idx : Nat
  rating : Nat
  review : String
  author : String
  headline : String
deriving DecidableEq

/-- The `review_data` MongoDB collection, as the association of unique
keys to records, in insertion order. -/
abbrev DB := List (String × ReviewRecord)

/-- MongoDB `update_one` with `upsert=True` on the unique key: replace
the stored record in place when the key exists, append a fresh entry
otherwise. -/
def upsert : DB → String → ReviewRecord → DB
  | [], k, r => [(k, r)]
  | (k', r') :: t, k, r =>
    if k = k' then (k', r) :: t else (k', r') :: upsert t k r

/-- The fields of the Loader object that `extract` reads or writes. -/
structure Loader where
  asin : Option String
  name : Option String
  ratings : Option (List Nat)
  reviews : Option (List String)
deriving DecidableEq

/-- Parse the star rating: first character of the text of the first
`i` tag of the block, as an integer.  `none` models the uncaught
AttributeError (no tag), IndexError (empty text) or ValueError (first
character not a digit). -/
def parseRating (t : ReviewTag) : Option Nat :=
  match t.iText with
  | none => none
  | some s =>
    match s.data with
    | [] => none
    | c :: _ => if c.isDigit then some (c.toNat - '0'.toNat) else none

/-- The unique key derived for a record: the product identifier and the
running index joined by an underscore. -/
def recKey (asin : String) (index : Nat) : String :=
  asin ++ "_" ++ toString index

/-- Processing of one review block (lines 221 to 245 of the source):
rating and review text are fatal when missing, author and headline
fall back to their documented defaults. -/
def extractBlock (asin : String) (index : Nat) (t : ReviewTag) :
    Except ExErr ReviewRecord :=
  match parseRating t with
  | none => .error .missingRating
  | some rating =>
    match t.reviewSpans.head? with
    | none => .error .missingReview
    | some review =>
      let author := (t.authorLinks.head?).getD "Anonymous"
      let headline := (t.headlineLinks.head?).getD "No headline"
      .ok ⟨asin, index, rating, review, author, headline⟩

/-- Inner loop of `extract` over the review blocks of one page: build
each record, upsert it under its derived key, advance the running
index.  Besides the updated index and collection it returns the rating
list, the review list and the ghost log of upsert calls (key and
record, in call order). -/
def extractTags (asin : String) :
    List ReviewTag → Nat → DB →
      Except (ExErr × DB) (Nat × DB × List Nat × List String × List (String × ReviewRecord))
  | [], index, db => .ok (index, db, [], [], [])
  | t :: ts, index, db =>
    match extractBlock asin index t with
    | .error e => .error (e, db)
    | .ok r =>
      let db' := upsert db (recKey asin index) r
      match extractTags asin ts (index + 1) db' with
      | .error e => .error e
      | .ok (index', db'', rs, vs, log) =>
        .ok (index', db'', r.rating :: rs, r.review :: vs, (recKey asin index, r) :: log)

/-- Outer loop of `extract` over the stored pages: a page with no
review blocks is logged and skipped, any other page is processed by
the inner loop with the running index carried across pages. -/
def extractPages (asin : String) :
    List Page → Nat → DB →
      Except (ExErr × DB) (Nat × DB × List Nat × List String × List (String × ReviewRecord))
  | [], index, db => .ok (index, db, [], [], [])
  | p :: ps, index, db =>
    if p.blocks.isEmpty then extractPages asin ps index db
    else
      match extractTags asin p.blocks index db with
      | .error e => .error e
      | .ok (index', db', rs, vs, log) =>
        match extractPages asin ps index' db' with
        | .error e => .error e
        | .ok (index'', db'', rs', vs', log') =>
          .ok (index'', db'', rs ++ rs', vs ++ vs', log ++ log')

/-- Python truthiness of the optional name: `not self.name` is true
both for `None` and for the empty string. -/
def pyFalsy : Option String → Bool
  | none => true
  | some s => s == ""

/-- Name resolution at the top of `extract`: when the stored name is
falsy, open page 1 (IOError when the file is absent) and take the text
of its first `a-link-normal` anchor (RuntimeError when there is none). -/
def resolveName (asin : String) (ld : Loader) (ds : DocumentStore) :
    Except ExErr String :=
  if pyFalsy ld.name then
    match ds.find? (fun p => p.name == asin ++ "_1.html") with
    | none => .error .ioError
    | some p1 =>
      match p1.anchors.head? with
      | none => .error .invalidHtml
      | some n => .ok n
  else .ok (ld.name.getD "")

/-- The identifier `extract` works with: the argument overrides the
stored one unless it is falsy (`if asin: self.asin = asin`). -/
def effectiveAsin (ld : Loader) (asinArg : Option String) : Option String :=
  match asinArg with
  | some a => if a = "" then ld.asin else some a
  | none => ld.asin

/-- File filter of the page loop: last five characters are `.html`. -/
def isHtmlFile (name : String) : Bool :=
  pyTail 5 name.data == ".html".data

/-- Loader.extract: resolve the identifier and the product name, list
the html pages of the partition, run the page loop, store the fresh
rating and review lists on the Loader and return it together with the
updated collection and the ghost upsert log.  A missing identifier is
string-formatted the way Python formats `None` into a path.  Errors
carry the collection as already modified by the upserts that did
happen before the raise. -/
def extract (ld : Loader) (asinArg : Option String) (ds : DocumentStore) (db : DB) :
    Except (ExErr × DB) (Loader × DB × List (String × ReviewRecord)) :=
  let asinO := effectiveAsin ld asinArg
  let asin := asinO.getD "None"
  match resolveName asin ld ds with
  | .error e => .error (e, db)
  | .ok nm =>
    let pages := ds.filter (fun p => isHtmlFile p.name)
    match extractPages asin pages 0 db with
    | .error e => .error e
    | .ok (_, db', rs, vs, log) =>
      .ok (⟨asinO, some nm, some rs, some vs⟩, db', log)

/-! ## Association-list lemmas for the MongoDB collection -/

/-- Lookup by unique key, the first entry whose key matches. -/
def lookupDB : DB → String → Option ReviewRecord
  | [], _ => none
  | (k', r') :: t, k => if k = k' then some r' else lookupDB t k

/-- Keys of the collection, in entry order. -/
def keysDB (db : DB) : List String := db.map Prod.fst

/-- Replay a log of upsert calls against a collection. -/
def applyLog (db : DB) (L : List (String × ReviewRecord)) : DB :=
  L.foldl (fun d kr => upsert d kr.1 kr.2) db

/-- Last record a log writes under a key, if any. -/
def lastWrite : List (String × ReviewRecord) → String → Option ReviewRecord
  | [], _ => none
  | kr :: t, k =>
    match lastWrite t k with
    | some r => some r
    | none => if kr.1 = k then some kr.2 else none

theorem upsert_upsert_self (d : DB) (k : String) (r : ReviewRecord) :
    upsert (upsert d k r) k r = upsert d k r := by
  induction d with
  | nil => simp [upsert]
  | cons hd t ih =>
    obtain ⟨k', r'⟩ := hd
    by_cases hk : k = k'
    · simp [upsert, hk]
    · simp [upsert, hk, ih]

theorem lookupDB_upsert_self (d : DB) (k : String) (r : ReviewRecord) :
    lookupDB (upsert d k r) k = some r := by
  induction d with
  | nil => simp [upsert, lookupDB]
  | cons hd t ih =>
    obtain ⟨k', r'⟩ := hd
    by_cases hk : k = k'
    · simp [upsert, hk, lookupDB]
    · simp [upsert, hk, lookupDB, ih]

theorem lookupDB_upsert_ne (d : DB) (k : String) (r : ReviewRecord) (k₁ : String)
    (h : k₁ ≠ k) : lookupDB (upsert d k r) k₁ = lookupDB d k₁ := by
  induction d with
  | nil => simp [upsert, lookupDB, h]
  | cons hd t ih =>
    obtain ⟨k', r'⟩ := hd
    by_cases hk : k = k'
    · subst hk; simp [upsert, lookupDB, h]
    · by_cases hk1 : k₁ = k'
      · simp [upsert, hk, lookupDB, hk1]
      · simp [upsert, hk, lookupDB, hk1, ih]

theorem lookupDB_eq_none (d : DB) (k : String) (h : k ∉ keysDB d) :
    lookupDB d k = none := by
  induction d with
  | nil => rfl
  | cons hd t ih =>
    obtain ⟨k', r'⟩ := hd
    simp [keysDB] at h
    simp [lookupDB, h.1, ih (by simp [keysDB, h.2])]

theorem keysDB_nil : keysDB [] = [] := rfl

theorem keysDB_cons (k : String) (r : ReviewRecord) (t : DB) :
    keysDB ((k, r) :: t) = k :: keysDB t := rfl

theorem keysDB_upsert_mem (d : DB) (k : String) (r : ReviewRecord)
    (h : k ∈ keysDB d) : keysDB (upsert d k r) = keysDB d := by
  induction d with
  | nil => simp [keysDB] at h
  | cons hd t ih =>
    obtain ⟨k', r'⟩ := hd
    by_cases hk : k = k'
    · simp [upsert, hk, keysDB_cons]
    · rw [keysDB_cons, List.mem_cons] at h
      rcases h with h | h
      · exact absurd h hk
      · simp only [upsert, if_neg hk, keysDB_cons]
        rw [ih h]

theorem keysDB_upsert_not_mem (d : DB) (k : String) (r : ReviewRecord)
    (h : k ∉ keysDB d) : keysDB (upsert d k r) = keysDB d ++ [k] := by
  induction d with
  | nil => simp [upsert, keysDB]
  | cons hd t ih =>
    obtain ⟨k', r'⟩ := hd
    rw [keysDB_cons, List.mem_cons, not_or] at h
    simp only [upsert, if_neg h.1, keysDB_cons, List.cons_append]
    rw [ih h.2]

theorem nodup_keysDB_upsert (d : DB) (k : String) (r : ReviewRecord)
    (h : (keysDB d).Nodup) : (keysDB (upsert d k r)).Nodup := by
  by_cases hm : k ∈ keysDB d
  · rw [keysDB_upsert_mem d k r hm]; exact h
  · rw [keysDB_upsert_not_mem d k r hm]
    simpa [List.nodup_append] using ⟨h, fun hx => hm hx⟩

theorem keysDB_subset_upsert (d : DB) (k : String) (r : ReviewRecord) :
    keysDB d ⊆ keysDB (upsert d k r) := by
  by_cases hm : k ∈ keysDB d
  · rw [keysDB_upsert_mem d k r hm]; exact fun x hx => hx
  · rw [keysDB_upsert_not_mem d k r hm]; exact List.subset_append_left _ _

theorem mem_keysDB_upsert_self (d : DB) (k : String) (r : ReviewRecord) :
    k ∈ keysDB (upsert d k r) := by
  by_cases hm : k ∈ keysDB d
  · rw [keysDB_upsert_mem d k r hm]; exact hm
  · rw [keysDB_upsert_not_mem d k r hm]; simp

theorem applyLog_nil (d : DB) : applyLog d [] = d := rfl

theorem applyLog_cons (d : DB) (kr : String × ReviewRecord)
    (L : List (String × ReviewRecord)) :
    applyLog d (kr :: L) = applyLog (upsert d kr.1 kr.2) L := rfl

theorem applyLog_cons_pair (d : DB) (k : String) (r : ReviewRecord)
    (L : List (String × ReviewRecord)) :
    applyLog d ((k, r) :: L) = applyLog (upsert d k r) L := rfl

theorem applyLog_append (d : DB) (L₁ L₂ : List (String × ReviewRecord)) :
    applyLog d (L₁ ++ L₂) = applyLog (applyLog d L₁) L₂ := by
  simp [applyLog, List.foldl_append]

theorem lookupDB_applyLog (L : List (String × ReviewRecord)) :
    ∀ (d : DB) (k : String),
      lookupDB (applyLog d L) k =
        match lastWrite L k with
        | some r => some r
        | none => lookupDB d k := by
  induction L with
  | nil => intro d k; rfl
  | cons kr L ih =>
    intro d k
    rw [applyLog_cons, ih]
    by_cases hw : (lastWrite L k).isSome
    · obtain ⟨r, hr⟩ := Option.isSome_iff_exists.mp hw
      simp [lastWrite, hr]
    · have hn : lastWrite L k = none := Option.not_isSome_iff_eq_none.mp hw
      by_cases hk : kr.1 = k
      · simp [lastWrite, hn, hk, hk ▸ lookupDB_upsert_self d kr.1 kr.2]
      · simp [lastWrite, hn, hk, lookupDB_upsert_ne d kr.1 kr.2 k (fun h => hk h.symm)]

theorem keysDB_subset_applyLog (L : List (String × ReviewRecord)) :
    ∀ d : DB, keysDB d ⊆ keysDB (applyLog d L) := by
  induction L with
  | nil => intro d; exact fun x hx => hx
  | cons kr L ih =>
    intro d
    rw [applyLog_cons]
    exact fun x hx => ih (upsert d kr.1 kr.2) (keysDB_subset_upsert d kr.1 kr.2 hx)

theorem mem_keysDB_applyLog (L : List (String × ReviewRecord)) :
    ∀ (d : DB) (k : String), k ∈ L.map Prod.fst → k ∈ keysDB (applyLog d L) := by
  induction L with
  | nil => intro d k h; simp at h
  | cons kr L ih =>
    intro d k h
    rw [List.map_cons, List.mem_cons] at h
    rw [applyLog_cons]
    rcases h with h | h
    · subst h
      exact keysDB_subset_applyLog L _ (mem_keysDB_upsert_self d kr.1 kr.2)
    · exact ih _ k h

theorem keysDB_applyLog_of_subset (L : List (String × ReviewRecord)) :
    ∀ d : DB, (∀ k ∈ L.map Prod.fst, k ∈ keysDB d) →
      keysDB (applyLog d L) = keysDB d := by
  induction L with
  | nil => intro d _; rfl
  | cons kr L ih =>
    intro d h
    rw [applyLog_cons]
    have h1 : kr.1 ∈ keysDB d := h kr.1 (by simp)
    have hk : keysDB (upsert d kr.1 kr.2) = keysDB d := keysDB_upsert_mem d kr.1 kr.2 h1
    rw [ih (upsert d kr.1 kr.2) (fun k hkm => hk ▸ h k (by simp [hkm])), hk]

theorem nodup_keysDB_applyLog (L : List (String × ReviewRecord)) :
    ∀ d : DB, (keysDB d).Nodup → (keysDB (applyLog d L)).Nodup := by
  induction L with
  | nil => intro d h; exact h
  | cons kr L ih =>
    intro d h
    rw [applyLog_cons]
    exact ih _ (nodup_keysDB_upsert d kr.1 kr.2 h)

theorem DB_ext : ∀ (d₁ d₂ : DB), (keysDB d₁).Nodup → keysDB d₁ = keysDB d₂ →
    (∀ k, lookupDB d₁ k = lookupDB d₂ k) → d₁ = d₂ := by
  intro d₁
  induction d₁ with
  | nil =>
    intro d₂ _ hkeys _
    cases d₂ with
    | nil => rfl
    | cons hd t => simp [keysDB] at hkeys
  | cons hd t ih =>
    intro d₂ hnd hkeys hlook
    obtain ⟨k, r⟩ := hd
    cases d₂ with
    | nil => simp [keysDB] at hkeys
    | cons hd₂ t₂ =>
      obtain ⟨k₂, r₂⟩ := hd₂
      rw [keysDB_cons, keysDB_cons] at hkeys
      injection hkeys with hk hts
      subst hk
      have hr : r = r₂ := by simpa [lookupDB] using hlook k
      subst hr
      rw [keysDB_cons] at hnd
      have hnotin : k ∉ keysDB t := (List.nodup_cons.mp hnd).1
      have hnotin₂ : k ∉ keysDB t₂ := hts ▸ hnotin
      have htails : t = t₂ := by
        apply ih t₂ (List.nodup_cons.mp hnd).2 hts
        intro k'
        by_cases hk' : k' = k
        · subst hk'
          rw [lookupDB_eq_none t k' hnotin, lookupDB_eq_none t₂ k' hnotin₂]
        · simpa [lookupDB, hk'] using hlook k'
      rw [htails]

theorem applyLog_applyLog_self (d : DB) (L : List (String × ReviewRecord))
    (hnd : (keysDB d).Nodup) :
    applyLog (applyLog d L) L = applyLog d L := by
  apply DB_ext
  · exact nodup_keysDB_applyLog L _ (nodup_keysDB_applyLog L d hnd)
  · exact keysDB_applyLog_of_subset L _ (fun k hk => mem_keysDB_applyLog L d k hk)
  · intro k
    rw [lookupDB_applyLog, lookupDB_applyLog]
    cases lastWrite L k with
    | none => rfl
    | some r => rfl

/-! ## Specification of the extraction loops -/

/-- Keys derived for `n` consecutive records starting at `start`. -/
def keySeq (asin : String) (start n : Nat) : List String :=
  match n with
  | 0 => []
  | n + 1 => recKey asin start :: keySeq asin (start + 1) n

theorem keySeq_append (asin : String) :
    ∀ (a b start : Nat),
      keySeq asin start (a + b) = keySeq asin start a ++ keySeq asin (start + a) b := by
  intro a
  induction a with
  | zero => intro b start; simp [keySeq]
  | succ m ih =>
    intro b start
    have : m + 1 + b = (m + b) + 1 := by omega
    rw [this, keySeq, keySeq, ih b (start + 1), List.cons_append]
    have : start + 1 + m = start + (m + 1) := by omega
    rw [this]

theorem keySeq_eq_map (asin : String) :
    ∀ (n start : Nat),
      keySeq asin start n = (List.range n).map (fun i => recKey asin (start + i)) := by
  intro n
  induction n with
  | zero => intro start; simp [keySeq]
  | succ m ih =>
    intro start
    rw [keySeq, ih (start + 1), List.range_succ_eq_map, List.map_cons, List.map_map]
    simp only [Nat.add_zero]
    refine congrArg₂ List.cons rfl ?_
    apply List.map_congr_left
    intro i _
    simp only [Function.comp_apply]
    exact congrArg (recKey asin) (by omega)

/-- Everything the page-internal loop guarantees on success: the index
advances by the number of records, the rating, review and log lists
have one entry per record, the keys follow the running index, the
collection is the replay of the log, and the run is insensitive to the
initial collection except through that replay. -/
theorem extractTags_spec (asin : String) (ts : List ReviewTag) :
    ∀ (index : Nat) (db : DB) (index' : Nat) (db' : DB) (rs : List Nat)
      (vs : List String) (log : List (String × ReviewRecord)),
      extractTags asin ts index db = .ok (index', db', rs, vs, log) →
      index' = index + log.length ∧
      rs.length = log.length ∧ vs.length = log.length ∧
      log.map Prod.fst = keySeq asin index log.length ∧
      db' = applyLog db log ∧
      ∀ db₀ : DB, extractTags asin ts index db₀ = .ok (index', applyLog db₀ log, rs, vs, log) := by
  induction ts with
  | nil =>
    intro index db index' db' rs vs log h
    simp only [extractTags, Except.ok.injEq, Prod.mk.injEq] at h
    obtain ⟨rfl, rfl, rfl, rfl, rfl⟩ := h
    refine ⟨by simp, by simp, by simp, by simp [keySeq], by simp [applyLog_nil], ?_⟩
    intro db₀
    simp [extractTags, applyLog_nil]
  | cons t ts ih =>
    intro index db index' db' rs vs log h
    cases hb : extractBlock asin index t with
    | error e =>
      simp only [extractTags, hb] at h
      exact Except.noConfusion h
    | ok r =>
      cases ht : extractTags asin ts (index + 1) (upsert db (recKey asin index) r) with
      | error e =>
        simp only [extractTags, hb, ht] at h
        exact Except.noConfusion h
      | ok out =>
        obtain ⟨i₁, d₁, rs₁, vs₁, lg₁⟩ := out
        simp only [extractTags, hb, ht, Except.ok.injEq, Prod.mk.injEq] at h
        obtain ⟨rfl, rfl, rfl, rfl, rfl⟩ := h
        obtain ⟨ih1, ih2, ih3, ih4, ih5, ih6⟩ :=
          ih (index + 1) (upsert db (recKey asin index) r) i₁ d₁ rs₁ vs₁ lg₁ ht
        refine ⟨?_, by simp [ih2], by simp [ih3], ?_, ?_, ?_⟩
        · simp only [List.length_cons]
          omega
        · simp only [List.map_cons, List.length_cons, keySeq]
          rw [ih4]
        · rw [ih5, ← applyLog_cons_pair]
        · intro db₀
          simp only [extractTags, hb]
          rw [ih6 (upsert db₀ (recKey asin index) r), ← applyLog_cons_pair]

/-- The page loop guarantees the same properties as the inner loop,
with the running index carried across pages. -/
theorem extractPages_spec (asin : String) (ps : List Page) :
    ∀ (index : Nat) (db : DB) (index' : Nat) (db' : DB) (rs : List Nat)
      (vs : List String) (log : List (String × ReviewRecord)),
      extractPages asin ps index db = .ok (index', db', rs, vs, log) →
      index' = index + log.length ∧
      rs.length = log.length ∧ vs.length = log.length ∧
      log.map Prod.fst = keySeq asin index log.length ∧
      db' = applyLog db log ∧
      ∀ db₀ : DB, extractPages asin ps index db₀ = .ok (index', applyLog db₀ log, rs, vs, log) := by
  induction ps with
  | nil =>
    intro index db index' db' rs vs log h
    simp only [extractPages, Except.ok.injEq, Prod.mk.injEq] at h
    obtain ⟨rfl, rfl, rfl, rfl, rfl⟩ := h
    refine ⟨by simp, by simp, by simp, by simp [keySeq], by simp [applyLog_nil], ?_⟩
    intro db₀
    simp [extractPages, applyLog_nil]
  | cons p ps ih =>
    intro index db index' db' rs vs log h
    by_cases hemp : p.blocks.isEmpty
    · simp only [extractPages, hemp, if_true] at h
      obtain ⟨ih1, ih2, ih3, ih4, ih5, ih6⟩ :=
        ih index db index' db' rs vs log h
      exact ⟨ih1, ih2, ih3, ih4, ih5, fun db₀ => by
        simp only [extractPages, hemp, if_true]; exact ih6 db₀⟩
    · cases hb : extractTags asin p.blocks index db with
      | error e =>
        simp only [extractPages, hemp, if_false, hb] at h
        exact Except.noConfusion h
      | ok out =>
        obtain ⟨i₁, d₁, rs₁, vs₁, lg₁⟩ := out
        cases hp : extractPages asin ps i₁ d₁ with
        | error e =>
          simp only [extractPages, hemp, if_false, hb, hp] at h
          exact Except.noConfusion h
        | ok out₂ =>
          obtain ⟨i₂, d₂, rs₂, vs₂, lg₂⟩ := out₂
          simp only [extractPages, hemp, if_false, hb, hp, Except.ok.injEq,
            Prod.mk.injEq] at h
          obtain ⟨rfl, rfl, rfl, rfl, rfl⟩ := h
          obtain ⟨ht1, ht2, ht3, ht4, ht5, ht6⟩ :=
            extractTags_spec asin p.blocks index db i₁ d₁ rs₁ vs₁ lg₁ hb
          obtain ⟨hq1, hq2, hq3, hq4, hq5, hq6⟩ :=
            ih i₁ d₁ index' db' rs₂ vs₂ lg₂ hp
          have hlen : (lg₁ ++ lg₂).length = lg₁.length + lg₂.length := List.length_append _ _
          refine ⟨by rw [hlen]; omega, ?_, ?_, ?_, ?_, ?_⟩
          · rw [List.length_append, hlen, ht2, hq2]
          · rw [List.length_append, hlen, ht3, hq3]
          · rw [List.map_append, hlen, ht4, hq4, ht1, keySeq_append]
          · rw [hq5, ht5, applyLog_append]
          · intro db₀
            simp [extractPages, hemp, ht6 db₀, hq6 (applyLog db₀ lg₁), applyLog_append]

/-- Name resolution gives the same answer once the resolved name is
stored on the Loader. -/
theorem resolveName_rerun (asin : String) (ld ld₂ : Loader) (ds : DocumentStore)
    (nm : String) (h : resolveName asin ld ds = .ok nm) (h₂ : ld₂.name = some nm) :
    resolveName asin ld₂ ds = .ok nm := by
  by_cases hnm : nm = ""
  · subst hnm
    by_cases hf : pyFalsy ld.name
    · rw [resolveName, if_pos hf] at h
      rw [resolveName, if_pos (by simp [pyFalsy, h₂])]
      exact h
    · rw [resolveName, if_neg hf] at h
      cases hname : ld.name with
      | none => rw [hname] at hf; simp [pyFalsy] at hf
      | some s =>
        rw [hname] at hf h
        simp only [pyFalsy] at hf
        have hs : s = "" := by simpa using h
        simp [hs] at hf
  · rw [resolveName, if_neg (by simp [pyFalsy, h₂, hnm])]
    simp [h₂]

/-- A review block the fatal-field policy rejects: no parseable rating,
or no review-text node. -/
def badBlock (t : ReviewTag) : Prop :=
  parseRating t = none ∨ t.reviewSpans = []

instance (t : ReviewTag) : Decidable (badBlock t) := by
  unfold badBlock; infer_instance

theorem extractBlock_error_of_bad (asin : String) (index : Nat) (t : ReviewTag)
    (h : badBlock t) : ∃ e, extractBlock asin index t = .error e := by
  rcases h with h | h
  · exact ⟨.missingRating, by simp [extractBlock, h]⟩
  · cases hp : parseRating t with
    | none => exact ⟨.missingRating, by simp [extractBlock, hp]⟩
    | some rating => exact ⟨.missingReview, by simp [extractBlock, hp, h]⟩

theorem extractBlock_ok_not_bad (asin : String) (index : Nat) (t : ReviewTag)
    (r : ReviewRecord) (h : extractBlock asin index t = .ok r) : ¬ badBlock t := by
  intro hb
  obtain ⟨e, he⟩ := extractBlock_error_of_bad asin index t hb
  rw [he] at h
  exact Except.noConfusion h

theorem extractTags_ok_not_bad (asin : String) (ts : List ReviewTag) :
    ∀ (index : Nat) (db : DB)
      (out : Nat × DB × List Nat × List String × List (String × ReviewRecord)),
      extractTags asin ts index db = .ok out → ∀ t ∈ ts, ¬ badBlock t := by
  induction ts with
  | nil => intro _ _ _ _ t ht; simp at ht
  | cons t₀ ts ih =>
    intro index db out h t ht
    cases hb : extractBlock asin index t₀ with
    | error e => simp [extractTags, hb] at h
    | ok r =>
      cases hrec : extractTags asin ts (index + 1) (upsert db (recKey asin index) r) with
      | error e => simp [extractTags, hb, hrec] at h
      | ok out₁ =>
        rcases List.mem_cons.mp ht with rfl | ht'
        · exact extractBlock_ok_not_bad asin index t r hb
        · exact ih (index + 1) (upsert db (recKey asin index) r) out₁ hrec t ht'

theorem extractTags_error_of_bad (asin : String) (ts : List ReviewTag) :
    ∀ (index : Nat) (db : DB), (∃ t ∈ ts, badBlock t) →
      ∃ e db', extractTags asin ts index db = .error (e, db') := by
  induction ts with
  | nil => intro index db h; obtain ⟨t, ht, _⟩ := h; simp at ht
  | cons t₀ ts ih =>
    intro index db h
    cases hb : extractBlock asin index t₀ with
    | error e => exact ⟨e, db, by simp [extractTags, hb]⟩
    | ok r =>
      have hnb := extractBlock_ok_not_bad asin index t₀ r hb
      obtain ⟨t, htm, htb⟩ := h
      rcases List.mem_cons.mp htm with rfl | htm'
      · exact absurd htb hnb
      · obtain ⟨e, db', he⟩ :=
          ih (index + 1) (upsert db (recKey asin index) r) ⟨t, htm', htb⟩
        exact ⟨e, db', by simp [extractTags, hb, he]⟩

theorem extractPages_error_of_bad (asin : String) (ps : List Page) :
    ∀ (index : Nat) (db : DB), (∃ p ∈ ps, ∃ t ∈ p.blocks, badBlock t) →
      ∃ e db', extractPages asin ps index db = .error (e, db') := by
  induction ps with
  | nil => intro index db h; obtain ⟨p, hp, _⟩ := h; simp at hp
  | cons p₀ ps ih =>
    intro index db h
    by_cases hemp : p₀.blocks.isEmpty
    · obtain ⟨p, hpm, t, htm, htb⟩ := h
      rcases List.mem_cons.mp hpm with rfl | hpm'
      · rw [List.isEmpty_iff] at hemp
        rw [hemp] at htm
        simp at htm
      · obtain ⟨e, db', he⟩ := ih index db ⟨p, hpm', t, htm, htb⟩
        exact ⟨e, db', by simp [extractPages, hemp, he]⟩
    · cases hb : extractTags asin p₀.blocks index db with
      | error e =>
        obtain ⟨e₁, db₁⟩ := e
        exact ⟨e₁, db₁, by simp [extractPages, hemp, hb]⟩
      | ok out =>
        obtain ⟨i₁, d₁, rs₁, vs₁, lg₁⟩ := out
        have hclean := extractTags_ok_not_bad asin p₀.blocks index db _ hb
        obtain ⟨p, hpm, t, htm, htb⟩ := h
        rcases List.mem_cons.mp hpm with rfl | hpm'
        · exact absurd htb (hclean t htm)
        · obtain ⟨e, db', he⟩ := ih i₁ d₁ ⟨p, hpm', t, htm, htb⟩
          exact ⟨e, db', by simp [extractPages, hemp, hb, he]⟩

/-! ## Poll loop lemmas -/

theorem pollLoop_step (E : Env) (expected fuel : Nat) (st : Store) (last : Nat)
    (nf : Bool) (h : last ≠ expected ∧ nf = true) (cnt : Nat)
    (hcnt : getHtmlCount (E.tick st) = some cnt) :
    pollLoop E expected (fuel + 1) st last nf =
      pollLoop E expected fuel (E.tick st) cnt (if last = cnt then false else nf) := by
  rw [pollLoop, if_pos h]
  simp only [hcnt]

theorem pollLoop_done (E : Env) (expected fuel : Nat) (st : Store) (last : Nat)
    (nf : Bool) (h : ¬(last ≠ expected ∧ nf = true)) :
    pollLoop E expected (fuel + 1) st last nf = .ok (last, nf, st) := by
  rw [pollLoop, if_neg h]

/-- The loop leaves either with the observed count equal to the
expected count, or with the stall flag cleared: stall is the sole exit
condition other than success. -/
theorem pollLoop_exit (E : Env) (expected : Nat) :
    ∀ (fuel : Nat) (st : Store) (last : Nat) (nf : Bool) (l' : Nat) (nf' : Bool)
      (st' : Store),
      pollLoop E expected fuel st last nf = .ok (l', nf', st') →
      l' = expected ∨ nf' = false := by
  intro fuel
  induction fuel with
  | zero => intro st last nf l' nf' st' h; exact Except.noConfusion h
  | succ f ih =>
    intro st last nf l' nf' st' h
    by_cases hc : last ≠ expected ∧ nf = true
    · cases hcnt : getHtmlCount (E.tick st) with
      | none =>
        rw [pollLoop, if_pos hc] at h
        simp only [hcnt] at h
        exact Except.noConfusion h
      | some cnt =>
        rw [pollLoop_step E expected f st last nf hc cnt hcnt] at h
        exact ih _ _ _ _ _ _ h
    · rw [pollLoop_done E expected f st last nf hc] at h
      simp only [Except.ok.injEq, Prod.mk.injEq] at h
      obtain ⟨rfl, rfl, rfl⟩ := h
      rcases Decidable.em (last = expected) with he | he
      · exact Or.inl he
      · cases nf with
        | false => exact Or.inr rfl
        | true => exact absurd ⟨he, rfl⟩ hc

/-- Whenever two consecutive polls agree while every count seen so far
differs from the expected count, the loop exits through the stall path
and the sentinel assignment yields 1. -/
theorem pollLoop_stall (E : Env) (expected : Nat) :
    ∀ (k : Nat) (st : Store) (obs : Nat → Nat) (fuel : Nat),
      (∀ j, getHtmlCount (E.tick^[j] st) = some (obs j)) →
      (∀ i, i ≤ k + 1 → obs i ≠ expected) →
      obs k = obs (k + 1) →
      k + 2 ≤ fuel →
      ∃ l' st', pollLoop E expected fuel st (obs 0) true = .ok (l', false, st') ∧
        sentinelStep expected l' false = 1 := by
  intro k
  induction k with
  | zero =>
    intro st obs fuel hobs hne hst hfuel
    obtain ⟨f, rfl⟩ : ∃ f, fuel = f + 1 + 1 := ⟨fuel - 2, by omega⟩
    have h0 : obs 0 ≠ expected := hne 0 (by omega)
    have h1 : obs 1 ≠ expected := hne 1 (by omega)
    have hcnt1 : getHtmlCount (E.tick st) = some (obs 1) := by
      have := hobs 1
      rwa [Function.iterate_one] at this
    refine ⟨obs 1, E.tick st, ?_, ?_⟩
    · rw [pollLoop_step E expected (f + 1) st (obs 0) true ⟨h0, rfl⟩ (obs 1) hcnt1,
        if_pos hst]
      exact pollLoop_done E expected f (E.tick st) (obs 1) false (by simp)
    · rw [sentinelStep, if_pos ⟨h1, rfl⟩]
  | succ k ih =>
    intro st obs fuel hobs hne hst hfuel
    obtain ⟨f, rfl⟩ : ∃ f, fuel = f + 1 := ⟨fuel - 1, by omega⟩
    have h0 : obs 0 ≠ expected := hne 0 (by omega)
    have hcnt1 : getHtmlCount (E.tick st) = some (obs 1) := by
      have := hobs 1
      rwa [Function.iterate_one] at this
    by_cases h01 : obs 0 = obs 1
    · obtain ⟨f', rfl⟩ : ∃ f', f = f' + 1 := ⟨f - 1, by omega⟩
      have h1 : obs 1 ≠ expected := hne 1 (by omega)
      refine ⟨obs 1, E.tick st, ?_, ?_⟩
      · rw [pollLoop_step E expected (f' + 1) st (obs 0) true ⟨h0, rfl⟩ (obs 1) hcnt1,
          if_pos h01]
        exact pollLoop_done E expected f' (E.tick st) (obs 1) false (by simp)
      · rw [sentinelStep, if_pos ⟨h1, rfl⟩]
    · obtain ⟨l', st', hpoll, hsent⟩ := ih (E.tick st) (fun j => obs (j + 1)) f
        (fun j => by have := hobs (j + 1); rwa [Function.iterate_succ_apply] at this)
        (fun i hi => hne (i + 1) (by omega))
        hst
        (by omega)
      refine ⟨l', st', ?_, hsent⟩
      rw [pollLoop_step E expected f st (obs 0) true ⟨h0, rfl⟩ (obs 1) hcnt1,
        if_neg h01]
      exact hpoll

/-- The nat `(n + 9) / 10` is exactly the ceiling of `n / 10` computed
in the rationals, as `int(math.ceil(n_reviews / 10.))` does. -/
theorem ceilDiv10_eq_ceil (n : Nat) : ceilDiv10 n = ⌈(n : ℚ) / 10⌉₊ := by
  have h10 : (0:ℚ) < 10 := by norm_num
  apply le_antisymm
  · rcases Nat.eq_zero_or_pos (ceilDiv10 n) with h | h
    · simp [h]
    · obtain ⟨m, hm⟩ : ∃ m, ceilDiv10 n = m + 1 := ⟨ceilDiv10 n - 1, by omega⟩
      rw [hm, Nat.add_one_le_iff, Nat.lt_ceil, lt_div_iff₀ h10]
      have hn : m * 10 < n := by
        unfold ceilDiv10 at hm
        omega
      exact_mod_cast hn
  · rw [Nat.ceil_le, div_le_iff₀ h10]
    have hn : n ≤ ceilDiv10 n * 10 := by
      unfold ceilDiv10
      omega
    exact_mod_cast hn

/-! ## Claim theorems -/

/-- C3: in the convergence poll loop, two consecutive polls with the
same observed count while that count differs from the expected count
declare a stall and make convergence fail with the sentinel value 1;
the loop never exits successfully without the observed count reaching
the expected count, and the stall flag is the sole exit condition
other than success. -/
theorem C3_stall_detection (E : Env) (expected : Nat) :
    (∀ (fuel : Nat) (st : Store) (last : Nat) (nf : Bool) (l' : Nat) (nf' : Bool)
        (st' : Store),
        pollLoop E expected fuel st last nf = .ok (l', nf', st') →
        l' = expected ∨ nf' = false) ∧
    (∀ (k : Nat) (st : Store) (obs : Nat → Nat) (fuel : Nat),
        (∀ j, getHtmlCount (E.tick^[j] st) = some (obs j)) →
        (∀ i, i ≤ k + 1 → obs i ≠ expected) →
        obs k = obs (k + 1) →
        k + 2 ≤ fuel →
        ∃ l' st', pollLoop E expected fuel st (obs 0) true = .ok (l', false, st') ∧
          sentinelStep expected l' false = 1) :=
  ⟨pollLoop_exit E expected, pollLoop_stall E expected⟩

/-- Environment with a static store, used to instantiate the poll loop
scenarios: the sleep step changes nothing. -/
def EC3 : Env := ⟨["amazon_crawler.py"], some [], fun st => st, fun st => st⟩

/-- Store holding three fetched pages and the advertised total 45. -/
def stC3 : Store :=
  ⟨some ["B01LYCLS24_1.html", "B01LYCLS24_2.html", "B01LYCLS24_3.html"], some 45⟩

/-- C3 witness: with three pages observed twice in a row while five are
expected, the loop exits through the stall path and the sentinel
assignment produces 1. -/
theorem C3_witness :
    ((3 : Nat) = 5 ∨ (false = false)) ∧
    (∃ l' st', pollLoop EC3 5 2 stC3 3 true = .ok (l', false, st') ∧
      sentinelStep 5 l' false = 1) :=
  ⟨(C3_stall_detection EC3 5).1 2 stC3 3 true 3 false stC3 (by decide),
    (C3_stall_detection EC3 5).2 0 stC3 (fun _ => 3) 2
      (fun j => by
        rw [Function.iterate_fixed rfl j]
        show getHtmlCount stC3 = some 3
        decide)
      (fun i _ => by
        show (3 : Nat) ≠ 5
        decide)
      rfl (by decide)⟩

/-- C4: on the resume path the expected page count is the minimum of
the ceilings of the requested and advertised review counts divided by
ten; for a target of 300 and an advertised total of 45 this is 5, and
convergence succeeds only when the observed count reaches exactly 5:
a resume body run returns either 5 or the sentinel 1, and a successful
(non-stall) poll exit carries exactly 5. -/
theorem C4_expected_pages :
    (∀ n : Nat, ceilDiv10 n = ⌈(n : ℚ) / 10⌉₊) ∧
    expectedPages 300 45 = 5 ∧
    (∀ (E : Env) (url : String) (aL : List Char) (files : List String)
        (fuel : Nat) (s : SState) (last : Nat) (s' : SState),
        getId url.data = some aL →
        s.store.partition = some files →
        (String.mk aL ++ "_1.html") ∈ files →
        s.store.summary = some 45 →
        scrapeBody E url 300 false fuel s = .ok (last, s') →
        last = 5 ∨ last = 1) ∧
    (∀ (E : Env) (fuel : Nat) (st : Store) (c l' : Nat) (st' : Store),
        pollLoop E 5 fuel st c true = .ok (l', true, st') → l' = 5) := by
  refine ⟨ceilDiv10_eq_ceil, by decide, ?_, ?_⟩
  · intro E url aL files fuel s last s' hurl hpart hmem hsum hbody
    obtain ⟨⟨part, summ⟩, ℓ⟩ := s
    have hpart' : part = some files := hpart
    have hsum' : summ = some 45 := hsum
    subst hpart' hsum'
    cases hcc : crawlerCmd E with
    | error e =>
      simp only [scrapeBody, hurl, hcc, Bool.false_eq_true, if_false] at hbody
      exact Except.noConfusion hbody
    | ok u =>
      simp only [scrapeBody, hurl, hcc, Bool.false_eq_true, if_false] at hbody
      rw [if_pos hmem] at hbody
      cases hpl : pollLoop E (expectedPages 300 45) fuel ⟨some files, some 45⟩
          ((files.filter (fun f => pyTail 4 f.data == "html".data)).length) true with
      | error e =>
        obtain ⟨e₁, st₁⟩ := e
        simp only [getHtmlCount, Option.map_some', hpl] at hbody
        exact Except.noConfusion hbody
      | ok out =>
        obtain ⟨l, nf, st₂⟩ := out
        simp only [getHtmlCount, Option.map_some', hpl, Except.ok.injEq,
          Prod.mk.injEq] at hbody
        obtain ⟨hlast, -⟩ := hbody
        have h5 : expectedPages 300 45 = 5 := by decide
        rcases pollLoop_exit E (expectedPages 300 45) fuel ⟨some files, some 45⟩ _ true
          l nf st₂ hpl with he | hnf
        · left
          rw [← hlast, sentinelStep, he, h5, if_neg (by simp)]
        · by_cases hl5 : l = expectedPages 300 45
          · left
            rw [← hlast, sentinelStep, hl5, h5, if_neg (by simp)]
          · right
            rw [← hlast, sentinelStep, if_pos ⟨hl5, hnf⟩]
  · intro E fuel st c l' st' h
    rcases pollLoop_exit E 5 fuel st c true l' true st' h with he | hnf
    · exact he
    · exact absurd hnf (by simp)

/-- C4 witness: the ceiling arithmetic at 45, the 300-versus-45
scenario, a concrete stalling resume run that returns the sentinel,
and a concrete successful poll exit at exactly 5 pages. -/
theorem C4_witness :
    ceilDiv10 45 = ⌈(45 : ℚ) / 10⌉₊ ∧
    expectedPages 300 45 = 5 ∧
    ((1 : Nat) = 5 ∨ (1 : Nat) = 1) ∧
    (5 : Nat) = 5 :=
  ⟨C4_expected_pages.1 45, C4_expected_pages.2.1,
    C4_expected_pages.2.2.1 EC3 "https://www.amazon.com/dp/B01LYCLS24"
      "B01LYCLS24".data
      ["B01LYCLS24_1.html", "B01LYCLS24_2.html", "B01LYCLS24_3.html"]
      2 ⟨stC3, 0⟩ 1 ⟨stC3, 0⟩ (by decide) (by decide) (by decide) (by decide)
      (by decide),
    C4_expected_pages.2.2.2 EC3 1 stC3 5 5 stC3 (by decide)⟩

theorem getHtmlCount_isSome (st : Store) (c : Nat) (h : getHtmlCount st = some c) :
    st.partition.isSome = true := by
  cases hp : st.partition with
  | none =>
    rw [getHtmlCount, hp] at h
    exact Option.noConfusion h
  | some files => rfl

/-- With a sleep step that changes nothing, the poll loop observes the
same count twice and exits after at most one iteration: either the
count already matches the expected count, or a stall is declared and
the sentinel assignment yields 1. -/
theorem pollLoop_const (E : Env) (htick : ∀ st, E.tick st = st) (expected : Nat)
    (fuel : Nat) (st : Store) (c : Nat) (hc : getHtmlCount st = some c)
    (hfuel : 2 ≤ fuel) :
    ∃ nf, pollLoop E expected fuel st c true = .ok (c, nf, st) ∧
      sentinelStep expected c nf = (if c = expected then c else 1) := by
  obtain ⟨f, rfl⟩ : ∃ f, fuel = f + 1 + 1 := ⟨fuel - 2, by omega⟩
  by_cases hce : c = expected
  · refine ⟨true, ?_, ?_⟩
    · exact pollLoop_done E expected (f + 1) st c true (by simp [hce])
    · rw [sentinelStep, if_neg (by simp [hce]), if_pos hce]
  · have hcnt : getHtmlCount (E.tick st) = some c := by rw [htick st]; exact hc
    refine ⟨false, ?_, ?_⟩
    · rw [pollLoop_step E expected (f + 1) st c true ⟨hce, rfl⟩ c hcnt, if_pos rfl,
        htick st]
      exact pollLoop_done E expected f st c false (by simp)
    · rw [sentinelStep, if_pos ⟨hce, rfl⟩, if_neg hce]

/-- Classification of one body pass under a working crawler setup and
a non-progressing fetcher: it never spins forever, never raises the
final ScrapeFailed itself, and launches the fetcher at most once. -/
theorem scrapeBody_classify (E : Env) (url : String) (n fuel : Nat) (aL : List Char)
    (hurl : getId url.data = some aL)
    (hcr : "amazon_crawler.py" ∈ E.cwdFiles)
    (hfetch : ∀ st, getHtmlCount (E.fetch st) = some 1)
    (htick : ∀ st, E.tick st = st)
    (hfuel : 2 ≤ fuel) :
    ∀ (del : Bool) (s : SState),
      (∀ e s', scrapeBody E url n del fuel s = .error (e, s') →
        e ≠ .fuelOut ∧ e ≠ .scrapeFailed ∧
        s.launches ≤ s'.launches ∧ s'.launches ≤ s.launches + 1) ∧
      (∀ last s', scrapeBody E url n del fuel s = .ok (last, s') →
        s.launches ≤ s'.launches ∧ s'.launches ≤ s.launches + 1 ∧
        s'.store.partition.isSome = true) := by
  intro del s
  obtain ⟨⟨part, summ⟩, ℓ⟩ := s
  have hcc : crawlerCmd E = .ok () := by rw [crawlerCmd, if_pos hcr]
  cases del with
  | true =>
    cases part with
    | none =>
      constructor
      · intro e s' h
        simp only [scrapeBody, hurl, hcc, deleteOp, eq_self_iff_true, if_true,
          Except.error.injEq, Prod.mk.injEq] at h
        obtain ⟨rfl, rfl⟩ := h
        exact ⟨by simp, by simp, Nat.le_refl _, Nat.le_succ _⟩
      · intro last s' h
        simp only [scrapeBody, hurl, hcc, deleteOp, eq_self_iff_true, if_true] at h
        exact Except.noConfusion h
    | some files =>
      have hf := hfetch ⟨none, summ⟩
      constructor
      · intro e s' h
        simp only [scrapeBody, hurl, hcc, deleteOp, eq_self_iff_true, if_true, hf] at h
        exact Except.noConfusion h
      · intro last s' h
        simp only [scrapeBody, hurl, hcc, deleteOp, eq_self_iff_true, if_true, hf,
          Except.ok.injEq, Prod.mk.injEq] at h
        obtain ⟨rfl, rfl⟩ := h
        exact ⟨Nat.le_succ _, Nat.le_refl _,
          getHtmlCount_isSome _ 1 (hfetch ⟨none, summ⟩)⟩
  | false =>
    cases part with
    | none =>
      have hf := hfetch ⟨none, summ⟩
      constructor
      · intro e s' h
        simp only [scrapeBody, hurl, hcc, Bool.false_eq_true, if_false, hf] at h
        exact Except.noConfusion h
      · intro last s' h
        simp only [scrapeBody, hurl, hcc, Bool.false_eq_true, if_false, hf,
          Except.ok.injEq, Prod.mk.injEq] at h
        obtain ⟨rfl, rfl⟩ := h
        exact ⟨Nat.le_succ _, Nat.le_refl _,
          getHtmlCount_isSome _ 1 (hfetch ⟨none, summ⟩)⟩
    | some files =>
      by_cases hmem : (String.mk aL ++ "_1.html") ∈ files
      · cases summ with
        | none =>
          constructor
          · intro e s' h
            simp only [scrapeBody, hurl, hcc, Bool.false_eq_true, if_false] at h
            rw [if_pos hmem] at h
            simp only [Except.error.injEq, Prod.mk.injEq] at h
            obtain ⟨rfl, rfl⟩ := h
            exact ⟨by simp, by simp, Nat.le_refl _, Nat.le_succ _⟩
          · intro last s' h
            simp only [scrapeBody, hurl, hcc, Bool.false_eq_true, if_false] at h
            rw [if_pos hmem] at h
            exact Except.noConfusion h
        | some total =>
          obtain ⟨nf, hpoll, hsent⟩ := pollLoop_const E htick (expectedPages n total)
            fuel ⟨some files, some total⟩
            ((files.filter (fun f : String => pyTail 4 f.data == "html".data)).length)
            (by rw [getHtmlCount]; rfl) hfuel
          constructor
          · intro e s' h
            simp only [scrapeBody, hurl, hcc, Bool.false_eq_true, if_false] at h
            rw [if_pos hmem] at h
            simp only [getHtmlCount, Option.map_some', hpoll] at h
            exact Except.noConfusion h
          · intro last s' h
            simp only [scrapeBody, hurl, hcc, Bool.false_eq_true, if_false] at h
            rw [if_pos hmem] at h
            simp only [getHtmlCount, Option.map_some', hpoll, Except.ok.injEq,
              Prod.mk.injEq] at h
            obtain ⟨-, rfl⟩ := h
            exact ⟨Nat.le_refl _, Nat.le_succ _, rfl⟩
      · constructor
        · intro e s' h
          simp only [scrapeBody, hurl, hcc, Bool.false_eq_true, if_false] at h
          rw [if_neg hmem] at h
          simp only [Except.error.injEq, Prod.mk.injEq] at h
          obtain ⟨rfl, rfl⟩ := h
          exact ⟨by simp, by simp, Nat.le_refl _, Nat.le_succ _⟩
        · intro last s' h
          simp only [scrapeBody, hurl, hcc, Bool.false_eq_true, if_false] at h
          rw [if_neg hmem] at h
          exact Except.noConfusion h

/-- A retry body pass (`delete=True`) on a state whose partition
exists: purge, relaunch, count the single page the broken fetcher
leaves behind. -/
theorem scrapeBody_retry (E : Env) (url : String) (n fuel : Nat) (aL : List Char)
    (hurl : getId url.data = some aL)
    (hcr : "amazon_crawler.py" ∈ E.cwdFiles)
    (hfetch : ∀ st, getHtmlCount (E.fetch st) = some 1) :
    ∀ (files : List String) (summ : Option Nat) (ℓ : Nat),
      scrapeBody E url n true fuel ⟨⟨some files, summ⟩, ℓ⟩ =
        .ok (1, ⟨E.fetch ⟨none, summ⟩, ℓ + 1⟩) := by
  intro files summ ℓ
  have hcc : crawlerCmd E = .ok () := by rw [crawlerCmd, if_pos hcr]
  have hf := hfetch ⟨none, summ⟩
  simp only [scrapeBody, hurl, hcc, deleteOp, eq_self_iff_true, if_true, hf]

/-- Exhausting the retry loop with the sentinel stuck at 1: each of the
remaining attempts purges and relaunches once, and at retry count 5 the
state is purged a final time and ScrapeFailed is raised with no
partition left behind. -/
theorem retryLoop_exhaust (E : Env) (url : String) (n fuel : Nat) (aL : List Char)
    (hurl : getId url.data = some aL)
    (hcr : "amazon_crawler.py" ∈ E.cwdFiles)
    (hfetch : ∀ st, getHtmlCount (E.fetch st) = some 1) :
    ∀ (gas retries : Nat) (s : SState), gas + retries = 5 →
      s.store.partition.isSome = true →
      ∃ s', retryLoop E url n fuel gas retries 1 s = .error (.scrapeFailed, s') ∧
        s'.store.partition = none ∧ s'.launches = s.launches + gas := by
  intro gas
  induction gas with
  | zero =>
    intro retries s hsum hpart
    have h5 : retries = 5 := by omega
    subst h5
    obtain ⟨⟨part, summ⟩, ℓ⟩ := s
    cases part with
    | none => simp at hpart
    | some files =>
      refine ⟨⟨⟨none, summ⟩, ℓ⟩, ?_, rfl, by simp⟩
      simp [retryLoop, retryExit, deleteOp]
  | succ g ih =>
    intro retries s hsum hpart
    have hlt : retries < 5 := by omega
    obtain ⟨⟨part, summ⟩, ℓ⟩ := s
    cases part with
    | none => simp at hpart
    | some files =>
      have hb := scrapeBody_retry E url n fuel aL hurl hcr hfetch files summ ℓ
      have hnext : (⟨E.fetch ⟨none, summ⟩, ℓ + 1⟩ : SState).store.partition.isSome = true :=
        getHtmlCount_isSome _ 1 (hfetch ⟨none, summ⟩)
      obtain ⟨s', hret, hpart', hl⟩ := ih (retries + 1) ⟨E.fetch ⟨none, summ⟩, ℓ + 1⟩
        (by omega) hnext
      refine ⟨s', ?_, hpart', by simp at hl ⊢; omega⟩
      rw [retryLoop, if_pos ⟨rfl, hlt⟩, hb]
      exact hret

/-- The retry loop is skipped entirely when the body left a page count
other than the sentinel. -/
theorem retryLoop_done (E : Env) (url : String) (n fuel : Nat) :
    ∀ (gas retries last : Nat) (s : SState), last ≠ 1 →
      retryLoop E url n fuel gas retries last s = .ok (retries, last, s) := by
  intro gas retries last s hl
  cases gas with
  | zero =>
    rw [retryLoop, retryExit, if_neg (fun hc => hl hc.1)]
  | succ g =>
    rw [retryLoop, if_neg (fun hc => hl hc.1), retryExit,
      if_neg (fun hc => hl hc.1)]

/-- C1: with a Fetcher that makes no progress (each relaunch leaves a
single page behind and nothing changes while sleeping), every scrape
invocation terminates (the poll loop never exhausts its fuel), the
fetcher is launched at most six times (the initial pass plus at most
five retry attempts, each a full purge-and-relaunch reset), and when
the run ends in ScrapeFailed the partition was purged once more and no
partition is left behind, after exactly the five bounded retries. -/
theorem C1_retry_bounded (E : Env) (url : String) (n fuel : Nat) (aL : List Char)
    (hurl : getId url.data = some aL)
    (hcr : "amazon_crawler.py" ∈ E.cwdFiles)
    (hfetch : ∀ st, getHtmlCount (E.fetch st) = some 1)
    (htick : ∀ st, E.tick st = st)
    (hfuel : 2 ≤ fuel)
    (del : Bool) (s : SState) :
    (∀ e s', scrape E url n del fuel s = .error (e, s') →
        e ≠ .fuelOut ∧ s'.launches ≤ s.launches + 6 ∧
        (e = .scrapeFailed →
          s'.store.partition = none ∧ s.launches + 5 ≤ s'.launches)) ∧
    (∀ r last s', scrape E url n del fuel s = .ok (r, last, s') →
        r ≤ 5 ∧ s'.launches ≤ s.launches + 6) := by
  have hclass := scrapeBody_classify E url n fuel aL hurl hcr hfetch htick hfuel del s
  cases hb : scrapeBody E url n del fuel s with
  | error e' =>
    obtain ⟨e₀, s₀⟩ := e'
    obtain ⟨hne1, hne2, hge, hle⟩ := hclass.1 e₀ s₀ hb
    have hsc : scrape E url n del fuel s = .error (e₀, s₀) := by rw [scrape, hb]
    constructor
    · intro e s' h
      rw [hsc] at h
      simp only [Except.error.injEq, Prod.mk.injEq] at h
      obtain ⟨rfl, rfl⟩ := h
      exact ⟨hne1, by omega, fun hsf => absurd hsf hne2⟩
    · intro r last s' h
      rw [hsc] at h
      exact Except.noConfusion h
  | ok out =>
    obtain ⟨last₀, s₀⟩ := out
    obtain ⟨hge, hle, hpart⟩ := hclass.2 last₀ s₀ hb
    have hsc : scrape E url n del fuel s = retryLoop E url n fuel 5 0 last₀ s₀ := by
      rw [scrape, hb]
    by_cases h1 : last₀ = 1
    · subst h1
      obtain ⟨s₂, hret, hpart₂, hl₂⟩ :=
        retryLoop_exhaust E url n fuel aL hurl hcr hfetch 5 0 s₀ (by omega) hpart
      constructor
      · intro e s' h
        rw [hsc, hret] at h
        simp only [Except.error.injEq, Prod.mk.injEq] at h
        obtain ⟨rfl, rfl⟩ := h
        exact ⟨by simp, by omega, fun _ => ⟨hpart₂, by omega⟩⟩
      · intro r last s' h
        rw [hsc, hret] at h
        exact Except.noConfusion h
    · have hdone := retryLoop_done E url n fuel 5 0 last₀ s₀ h1
      constructor
      · intro e s' h
        rw [hsc, hdone] at h
        exact Except.noConfusion h
      · intro r last s' h
        rw [hsc, hdone] at h
        simp only [Except.ok.injEq, Prod.mk.injEq] at h
        obtain ⟨rfl, -, rfl⟩ := h
        exact ⟨by omega, by omega⟩

/-- Environment whose fetcher makes no progress: every launch leaves a
partition holding exactly one page, and sleeping changes nothing. -/
def EC1 : Env :=
  ⟨["amazon_crawler.py"], some [], fun _ => ⟨some ["p1.html"], none⟩, fun st => st⟩

/-- C1 witness: a concrete scrape against the no-progress fetcher ends
in ScrapeFailed after one initial launch and five retry relaunches,
with no partition left behind. -/
theorem C1_witness :
    Err.scrapeFailed ≠ Err.fuelOut ∧ (6 : Nat) ≤ 0 + 6 ∧
      (Err.scrapeFailed = Err.scrapeFailed →
        (⟨⟨none, none⟩, 6⟩ : SState).store.partition = none ∧ (0 : Nat) + 5 ≤ 6) :=
  (C1_retry_bounded EC1 "https://www.amazon.com/dp/B01LYCLS24" 300 2
      "B01LYCLS24".data (by decide) (by decide)
      (fun st => by
        show getHtmlCount ⟨some ["p1.html"], none⟩ = some 1
        decide)
      (fun st => rfl) (by decide) false ⟨⟨none, none⟩, 0⟩).1
    Err.scrapeFailed ⟨⟨none, none⟩, 6⟩ (by decide)

/-- Environment with a working crawler setup and a static store, used
for the C8 instances. -/
def EC8 : Env := ⟨["amazon_crawler.py"], some [], fun st => st, fun st => st⟩

/-- State whose partition directory exists but holds no pages. -/
def sC8 : SState := ⟨⟨some [], none⟩, 0⟩

/-- C8 counterexample: the claim says the Fetcher is launched if and
only if the DocumentStore does not already hold a non-empty set of
pages.  Here the partition exists but is empty, so the claim demands a
launch; the code branches on directory existence alone, skips the
launch (the launch counter stays 0) and goes to the resume logic,
which fails opening page 1. -/
theorem C8_counterexample :
    sC8.store.partition = some [] ∧
    scrapeBody EC8 "https://www.amazon.com/dp/B01LYCLS24" 300 false 2 sC8 =
      .error (.ioError, sC8) ∧
    launchesOf
      (scrapeBody EC8 "https://www.amazon.com/dp/B01LYCLS24" 300 false 2 sC8) = 0 :=
  ⟨rfl, by decide, by decide⟩

/-- C8 amended: `scrape` launches the external Fetcher if and only if
the partition directory does not exist; when the directory exists,
even empty, the launch is skipped and control goes to the convergence
logic of the resume path. -/
theorem C8_launch_iff_no_partition (E : Env) (url : String) (n fuel : Nat)
    (aL : List Char) (s : SState)
    (hurl : getId url.data = some aL)
    (hcr : "amazon_crawler.py" ∈ E.cwdFiles) :
    launchesOf (scrapeBody E url n false fuel s) =
      s.launches + (if s.store.partition = none then 1 else 0) := by
  obtain ⟨⟨part, summ⟩, ℓ⟩ := s
  have hcc : crawlerCmd E = .ok () := by rw [crawlerCmd, if_pos hcr]
  cases part with
  | none =>
    cases hf : getHtmlCount (E.fetch ⟨none, summ⟩) with
    | none =>
      simp only [scrapeBody, hurl, hcc, Bool.false_eq_true, if_false, hf, launchesOf]
      simp
    | some c =>
      simp only [scrapeBody, hurl, hcc, Bool.false_eq_true, if_false, hf, launchesOf]
      simp
  | some files =>
    have hne : ((⟨some files, summ⟩ : Store).partition = none) = False := by
      simp
    by_cases hmem : (String.mk aL ++ "_1.html") ∈ files
    · cases summ with
      | none =>
        simp only [scrapeBody, hurl, hcc, Bool.false_eq_true, if_false]
        rw [if_pos hmem]
        simp [launchesOf]
      | some total =>
        simp only [scrapeBody, hurl, hcc, Bool.false_eq_true, if_false]
        rw [if_pos hmem]
        cases hpl : pollLoop E (expectedPages n total) fuel ⟨some files, some total⟩
            ((files.filter (fun f : String => pyTail 4 f.data == "html".data)).length)
            true with
        | error e =>
          obtain ⟨e₁, st₁⟩ := e
          simp only [getHtmlCount, Option.map_some', hpl, launchesOf]
          simp
        | ok out =>
          obtain ⟨l, nf, st₂⟩ := out
          simp only [getHtmlCount, Option.map_some', hpl, launchesOf]
          simp
    · simp only [scrapeBody, hurl, hcc, Bool.false_eq_true, if_false]
      rw [if_neg hmem]
      simp [launchesOf]

/-- C8 amended witness: on the empty-but-existing partition the launch
counter is unchanged. -/
theorem C8_witness :
    launchesOf (scrapeBody EC8 "https://www.amazon.com/dp/B01LYCLS24" 300 false 2 sC8) =
      sC8.launches + (if sC8.store.partition = none then 1 else 0) :=
  C8_launch_iff_no_partition EC8 "https://www.amazon.com/dp/B01LYCLS24" 300 2
    "B01LYCLS24".data sC8 (by decide) (by decide)

/-- Environment for the C9 run: working crawler, fetcher drops one
page. -/
def EC9 : Env :=
  ⟨["amazon_crawler.py"], some [], fun _ => ⟨some ["p1.html"], none⟩, fun st => st⟩

/-- State with no partition at all. -/
def sC9 : SState := ⟨⟨none, none⟩, 0⟩

/-- C9: the code at the failing input.  The claim (and the spec, and
the except branches of `_delete` itself) treat a missing partition as
a no-op purge, but `os.listdir` in `_delete` runs outside any try
block, so `scrape` with the force-delete flag on a product with no
partition raises an uncaught OSError instead of proceeding; the first
half of the claim does hold: with an existing partition the purge
empties the store before the Fetcher runs, as the third conjunct shows
(the relaunched fetch receives the purged store). -/
theorem C9_delete_missing_partition_raises :
    deleteOp sC9 = .error (.osError, sC9) ∧
    scrape EC9 "https://www.amazon.com/dp/B01LYCLS24" 300 true 2 sC9 =
      .error (.osError, sC9) ∧
    scrapeBody EC9 "https://www.amazon.com/dp/B01LYCLS24" 300 true 2
        ⟨⟨some ["B01LYCLS24_1.html"], some 45⟩, 0⟩ =
      .ok (1, ⟨⟨some ["p1.html"], none⟩, 1⟩) :=
  ⟨rfl, by decide, by decide⟩

/-- C5: for every valid source URL, product-identifier derivation is
deterministic (the same URL always yields the same identifier, since
`_get_id` is a pure function of the url) and the derived identifier is
exactly 10 characters long. -/
theorem C5_getId_deterministic_length :
    (∀ u₁ u₂ : List Char, u₁ = u₂ → getId u₁ = getId u₂) ∧
    (∀ url : List Char, ValidUrl url → ∃ a, getId url = some a ∧ a.length = 10) := by
  refine ⟨fun u₁ u₂ h => by rw [h], fun url hv => ?_⟩
  obtain ⟨h2, hd⟩ := hv
  by_cases h10 : ((urlSegs url).getD ((urlSegs url).length - 2) []).length = 10
  · exact ⟨_, by rw [getId, if_pos h2, if_pos h10], h10⟩
  · have hlast : 10 ≤ (((urlSegs url).getLast?).getD []).length := hd.resolve_left h10
    refine ⟨(((urlSegs url).getLast?).getD []).take 10,
      by rw [getId, if_pos h2, if_neg h10], ?_⟩
    rw [List.length_take]
    exact Nat.min_eq_left hlast

/-- C5 witness: a concrete product url in the `.../id` format yields a
10-character identifier. -/
theorem C5_witness :
    ValidUrl "https://www.amazon.com/dp/B01LYCLS24".data ∧
      ∃ a, getId "https://www.amazon.com/dp/B01LYCLS24".data = some a ∧ a.length = 10 :=
  ⟨by decide, C5_getId_deterministic_length.2 _ (by decide)⟩

/-- C6: a review block whose rating node or review-text node is missing
or unparseable makes the whole extract call fail; the error propagates
to the caller and no partial batch is reported as success. -/
theorem C6_fatal_field_policy (ld : Loader) (asinArg : Option String)
    (ds : DocumentStore) (db : DB)
    (h : ∃ p ∈ ds.filter (fun p => isHtmlFile p.name), ∃ t ∈ p.blocks, badBlock t) :
    (extract ld asinArg ds db).isOk = false := by
  simp only [extract]
  cases hres : resolveName ((effectiveAsin ld asinArg).getD "None") ld ds with
  | error e => rfl
  | ok nm =>
    obtain ⟨e, db', he⟩ :=
      extractPages_error_of_bad ((effectiveAsin ld asinArg).getD "None")
        (ds.filter (fun p => isHtmlFile p.name)) 0 db h
    rw [he]
    rfl

/-- Store with a single page that contains one review block with no
rating node, used to instantiate the fatal-field policy. -/
def dsC6 : DocumentStore :=
  [⟨"B01LYCLS24_1.html", ["Widget"], [⟨none, ["Broken"], [], []⟩]⟩]

/-- C6 witness: extracting from that store fails. -/
theorem C6_witness :
    (∃ p ∈ dsC6.filter (fun p => isHtmlFile p.name), ∃ t ∈ p.blocks, badBlock t) ∧
      (extract ⟨some "B01LYCLS24", some "Widget", none, none⟩ none dsC6 []).isOk = false :=
  ⟨by decide,
    C6_fatal_field_policy ⟨some "B01LYCLS24", some "Widget", none, none⟩ none dsC6 []
      (by decide)⟩

/-- C7: a review block missing its author node still extracts, with the
author field set to the sentinel Anonymous; a block missing its
headline node extracts with the sentinel No headline; the other record
fields are unchanged by either substitution. -/
theorem C7_default_substitution (asin : String) (idx : Nat) (t : ReviewTag)
    (r : ReviewRecord) (h : extractBlock asin idx t = .ok r) :
    extractBlock asin idx { t with authorLinks := [] } =
        .ok { r with author := "Anonymous" } ∧
    extractBlock asin idx { t with headlineLinks := [] } =
        .ok { r with headline := "No headline" } ∧
    extractBlock asin idx { t with authorLinks := [], headlineLinks := [] } =
        .ok { r with author := "Anonymous", headline := "No headline" } := by
  obtain ⟨it, rv, al, hl⟩ := t
  cases hp : parseRating ⟨it, rv, al, hl⟩ with
  | none =>
    simp only [extractBlock, hp] at h
    exact Except.noConfusion h
  | some rating =>
    cases hrv : rv.head? with
    | none =>
      simp only [extractBlock, hp, hrv] at h
      exact Except.noConfusion h
    | some review =>
      simp only [extractBlock, hp, hrv, Except.ok.injEq] at h
      subst h
      have hp₁ : parseRating ⟨it, rv, [], hl⟩ = some rating := hp
      have hp₂ : parseRating ⟨it, rv, al, []⟩ = some rating := hp
      have hp₃ : parseRating ⟨it, rv, [], []⟩ = some rating := hp
      refine ⟨?_, ?_, ?_⟩
      · simp [extractBlock, hp₁, hrv]
      · simp [extractBlock, hp₂, hrv]
      · simp [extractBlock, hp₃, hrv]

/-- Review block and record used to instantiate the default
substitution claim. -/
def tC7 : ReviewTag := ⟨some "5 stars", ["Great"], ["Alice"], ["Nice"]⟩

/-- Record extracted from `tC7`. -/
def rC7 : ReviewRecord := ⟨"B01LYCLS24", 0, 5, "Great", "Alice", "Nice"⟩

/-- C7 witness: dropping the author and headline nodes of a concrete
block yields the documented sentinels and leaves the rest unchanged. -/
theorem C7_witness :
    extractBlock "B01LYCLS24" 0 { tC7 with authorLinks := [] } =
        .ok { rC7 with author := "Anonymous" } ∧
    extractBlock "B01LYCLS24" 0 { tC7 with headlineLinks := [] } =
        .ok { rC7 with headline := "No headline" } ∧
    extractBlock "B01LYCLS24" 0 { tC7 with authorLinks := [], headlineLinks := [] } =
        .ok { rC7 with author := "Anonymous", headline := "No headline" } :=
  C7_default_substitution "B01LYCLS24" 0 tC7 rC7 (by decide)

/-- C2: persistence is idempotent.  Upserting a record twice under its
key leaves the collection as upserting it once; a second `extract` run
over the unchanged DocumentStore succeeds with identical records,
identical derived keys and an unchanged collection; and the collection
keeps its keys free of duplicates. -/
theorem C2_persistence_idempotent (ld : Loader) (ds : DocumentStore) (db : DB)
    (ld' : Loader) (db' : DB) (log : List (String × ReviewRecord))
    (d : DB) (k : String) (r : ReviewRecord)
    (hnd : (keysDB db).Nodup)
    (h : extract ld none ds db = .ok (ld', db', log)) :
    upsert (upsert d k r) k r = upsert d k r ∧
    extract ld' none ds db' = .ok (ld', db', log) ∧
    (keysDB db').Nodup := by
  refine ⟨upsert_upsert_self d k r, ?_⟩
  simp only [extract] at h
  cases hres : resolveName ((effectiveAsin ld none).getD "None") ld ds with
  | error e =>
    rw [hres] at h
    exact Except.noConfusion h
  | ok nm =>
    rw [hres] at h
    cases hpp : extractPages ((effectiveAsin ld none).getD "None")
        (ds.filter (fun p => isHtmlFile p.name)) 0 db with
    | error e =>
      rw [hpp] at h
      exact Except.noConfusion h
    | ok out =>
      obtain ⟨i, dbx, rs, vs, lg⟩ := out
      rw [hpp] at h
      simp only [Except.ok.injEq, Prod.mk.injEq] at h
      obtain ⟨hld, hdb, hlog⟩ := h
      subst hld hdb hlog
      obtain ⟨hs1, hs2, hs3, hs4, hs5, hs6⟩ :=
        extractPages_spec ((effectiveAsin ld none).getD "None")
          (ds.filter (fun p => isHtmlFile p.name)) 0 db i dbx rs vs lg hpp
      have hself : applyLog dbx lg = dbx := by
        rw [hs5]
        exact applyLog_applyLog_self db lg hnd
      constructor
      · have hres₂ : resolveName ((effectiveAsin ld none).getD "None")
            ⟨effectiveAsin ld none, some nm, some rs, some vs⟩ ds = .ok nm :=
          resolveName_rerun _ ld _ ds nm hres rfl
        have hreduce : effectiveAsin ⟨effectiveAsin ld none, some nm, some rs, some vs⟩ none
            = effectiveAsin ld none := rfl
        simp only [extract, hreduce, hres₂, hs6 dbx, hself]
      · rw [hs5]
        exact nodup_keysDB_applyLog lg db hnd

/-- Loader, store, collection and log of the concrete C2 run. -/
def ldC2 : Loader := ⟨some "B01LYCLS24", some "Widget", none, none⟩

/-- Store with one well-formed page for the C2 run. -/
def dsC2 : DocumentStore :=
  [⟨"B01LYCLS24_1.html", ["Widget"],
    [⟨some "5 stars", ["Great"], ["Alice"], ["Nice"]⟩]⟩]

/-- Loader state after the first C2 run. -/
def ldC2' : Loader :=
  ⟨some "B01LYCLS24", some "Widget", some [5], some ["Great"]⟩

/-- Collection and log after the first C2 run. -/
def dbC2 : DB :=
  [("B01LYCLS24_0", ⟨"B01LYCLS24", 0, 5, "Great", "Alice", "Nice"⟩)]

/-- C2 witness: on a concrete store, re-running extraction leaves the
collection untouched and duplicate-free, and a double upsert equals a
single one. -/
theorem C2_witness :
    upsert (upsert [] "k" ⟨"a", 0, 5, "t", "u", "h"⟩) "k" ⟨"a", 0, 5, "t", "u", "h"⟩ =
        upsert [] "k" ⟨"a", 0, 5, "t", "u", "h"⟩ ∧
    extract ldC2' none dsC2 dbC2 = .ok (ldC2', dbC2, dbC2) ∧
    (keysDB dbC2).Nodup :=
  C2_persistence_idempotent ldC2 dsC2 [] ldC2' dbC2 dbC2
    [] "k" ⟨"a", 0, 5, "t", "u", "h"⟩ (by decide) (by decide)

/-- C10: a successful extract overwrites the ratings and reviews
attributes with freshly built lists of equal length, the length being
the number of records upserted in that run, whose keys carry exactly
the indices 0 to n-1 in emission order; the previous list contents are
discarded, never appended to. -/
theorem C10_fresh_lists (ld : Loader) (asinArg : Option String)
    (ds : DocumentStore) (db : DB) (ld' : Loader) (db' : DB)
    (log : List (String × ReviewRecord)) (x : Option (List Nat))
    (y : Option (List String))
    (h : extract ld asinArg ds db = .ok (ld', db', log)) :
    ld'.ratings.isSome ∧ ld'.reviews.isSome ∧
    (ld'.ratings.getD []).length = log.length ∧
    (ld'.reviews.getD []).length = log.length ∧
    log.map Prod.fst =
      (List.range log.length).map (recKey (ld'.asin.getD "None")) ∧
    extract { ld with ratings := x, reviews := y } asinArg ds db =
      .ok (ld', db', log) := by
  obtain ⟨a0, n0, rt0, rv0⟩ := ld
  have hsame : extract ⟨a0, n0, x, y⟩ asinArg ds db =
      extract ⟨a0, n0, rt0, rv0⟩ asinArg ds db := rfl
  simp only [extract] at h
  cases hres : resolveName ((effectiveAsin ⟨a0, n0, rt0, rv0⟩ asinArg).getD "None")
      ⟨a0, n0, rt0, rv0⟩ ds with
  | error e =>
    rw [hres] at h
    exact Except.noConfusion h
  | ok nm =>
    rw [hres] at h
    cases hpp : extractPages ((effectiveAsin ⟨a0, n0, rt0, rv0⟩ asinArg).getD "None")
        (ds.filter (fun p => isHtmlFile p.name)) 0 db with
    | error e =>
      rw [hpp] at h
      exact Except.noConfusion h
    | ok out =>
      obtain ⟨i, dbx, rs, vs, lg⟩ := out
      rw [hpp] at h
      simp only [Except.ok.injEq, Prod.mk.injEq] at h
      obtain ⟨hld, hdb, hlog⟩ := h
      subst hdb hlog
      obtain ⟨hs1, hs2, hs3, hs4, hs5, hs6⟩ :=
        extractPages_spec ((effectiveAsin ⟨a0, n0, rt0, rv0⟩ asinArg).getD "None")
          (ds.filter (fun p => isHtmlFile p.name)) 0 db i dbx rs vs lg hpp
      have hasin : ld'.asin = effectiveAsin ⟨a0, n0, rt0, rv0⟩ asinArg := by
        rw [← hld]
      have hrat : ld'.ratings = some rs := by rw [← hld]
      have hrev : ld'.reviews = some vs := by rw [← hld]
      refine ⟨by rw [hrat]; rfl, by rw [hrev]; rfl, ?_, ?_, ?_, ?_⟩
      · rw [hrat]; simpa using hs2
      · rw [hrev]; simpa using hs3
      · rw [hasin, hs4, keySeq_eq_map]
        apply List.map_congr_left
        intro i _
        exact congrArg _ (Nat.zero_add i)
      · rw [hsame]
        simp only [extract, hres, hpp]
        rw [hld]

/-- C10 witness: on the concrete store the run produces one record,
the lists have length 1, the single key carries index 0, and stale
ratings and reviews on the Loader do not change the outcome. -/
theorem C10_witness :
    (ldC2'.ratings.isSome ∧ ldC2'.reviews.isSome ∧
      (ldC2'.ratings.getD []).length = dbC2.length ∧
      (ldC2'.reviews.getD []).length = dbC2.length ∧
      dbC2.map Prod.fst =
        (List.range dbC2.length).map (recKey (ldC2'.asin.getD "None")) ∧
      extract { ldC2 with ratings := some [9], reviews := some ["stale"] } none
          dsC2 [] = .ok (ldC2', dbC2, dbC2)) :=
  C10_fresh_lists ldC2 none dsC2 [] ldC2' dbC2 dbC2 (some [9]) (some ["stale"])
    (by decide)

end Scraper
